import Mathlib

/-!
Verification of the DID document generator (generate.py).

The development shallowly embeds the core of the generator:

* byte-level helpers (big-endian integer rendering, `int.to_bytes`),
* `base64.urlsafe_b64encode` (RFC 4648 URL-safe alphabet, with padding),
* the curve registry tables `EC_CURVE_NAMES` and `SIGNING_ALGORITHMS`,
* `convert_key_to_jwk`, `generate_key_fingerprint` (SHA-256 of the DER
  SubjectPublicKeyInfo encoding), `create_did_document`,
* `load_or_generate_private_key` as an explicit state-and-effect function,
* `is_valid_did_folder_name`, together with a small regular-expression
  semantics used to state what `re.fullmatch` on the source pattern means.

Python dictionaries are modelled as association lists with Python's
insertion-order/override merge semantics; machine integers are `Nat` with
explicit bounds; exceptions are `Except`/explicit result values.
-/

namespace GenerateDidWeb

/-! ## Byte-level helpers -/

/-- Big-endian rendering of `n` into exactly `len` bytes (the value of
Python `int.to_bytes(len, "big")` when it does not overflow): the low
`len` base-256 digits of `n`, most significant first. -/
def bytesBE : Nat → Nat → List Nat
  | 0, _ => []
  | len + 1, n => bytesBE len (n / 256) ++ [n % 256]

/-- Interpret a byte list as a big-endian unsigned integer. -/
def fromBytesBE (l : List Nat) : Nat :=
  l.foldl (fun a b => a * 256 + b) 0

/-- Python `int.to_bytes(length, "big")` on a nonnegative integer: raises
`OverflowError` (here `none`) when the value needs more than `length`
bytes, otherwise the zero-padded big-endian byte string. -/
def to_bytes (length : Nat) (n : Nat) : Option (List Nat) :=
  if n < 256 ^ length then some (bytesBE length n) else none

/-! ## base64url (Python `base64.urlsafe_b64encode`) -/

/-- The RFC 4648 URL-safe base64 alphabet: index 0-25 ↦ A-Z, 26-51 ↦ a-z,
52-61 ↦ 0-9, 62 ↦ the minus sign, 63 ↦ underscore. -/
def encodeChar (n : Nat) : Char :=
  if n < 26 then Char.ofNat (65 + n)
  else if n < 52 then Char.ofNat (97 + (n - 26))
  else if n < 62 then Char.ofNat (48 + (n - 52))
  else if n = 62 then Char.ofNat 45
  else Char.ofNat 95

/-- Inverse of `encodeChar` on the alphabet (0 elsewhere). -/
def decodeChar (c : Char) : Nat :=
  if 65 ≤ c.toNat ∧ c.toNat ≤ 90 then c.toNat - 65
  else if 97 ≤ c.toNat ∧ c.toNat ≤ 122 then c.toNat - 97 + 26
  else if 48 ≤ c.toNat ∧ c.toNat ≤ 57 then c.toNat - 48 + 52
  else if c.toNat = 45 then 62
  else if c.toNat = 95 then 63
  else 0

/-- Python `base64.urlsafe_b64encode`: standard base64 over the URL-safe
alphabet, WITH `=` padding (the source never strips it). Input bytes are
consumed in groups of three; a final group of one or two bytes produces
two or three alphabet characters followed by `==` or `=`. -/
def urlsafe_b64encode : List Nat → List Char
  | [] => []
  | [a] => [encodeChar (a / 4), encodeChar (a % 4 * 16), '=', '=']
  | [a, b] => [encodeChar (a / 4), encodeChar (a % 4 * 16 + b / 16),
      encodeChar (b % 16 * 4), '=']
  | a :: b :: c :: rest =>
      encodeChar (a / 4) :: encodeChar (a % 4 * 16 + b / 16) ::
      encodeChar (b % 16 * 4 + c / 64) :: encodeChar (c % 64) ::
      urlsafe_b64encode rest

/-- base64url decoding (used to state that the encoded coordinates decode
back to the exact byte strings): four characters yield three bytes, a
block ending in one or two `=` characters yields two bytes or one. -/
def urlsafe_b64decode : List Char → List Nat
  | c1 :: c2 :: c3 :: c4 :: rest =>
      if c3 = '=' then [decodeChar c1 * 4 + decodeChar c2 / 16]
      else if c4 = '=' then
        [decodeChar c1 * 4 + decodeChar c2 / 16,
         decodeChar c2 % 16 * 16 + decodeChar c3 / 4]
      else
        (decodeChar c1 * 4 + decodeChar c2 / 16) ::
        (decodeChar c2 % 16 * 16 + decodeChar c3 / 4) ::
        (decodeChar c3 % 4 * 64 + decodeChar c4) ::
        urlsafe_b64decode rest
  | _ => []

/-! ## Python dictionaries as association lists

A dict is a list of key/value pairs in insertion order. `dict_set` models
item assignment (override in place if the key exists, else append);
`dict_merge d opts` models the literal `\x7b**d, **opts\x7d`. -/

def dict_set {α : Type} (d : List (String × α)) (kv : String × α) :
    List (String × α) :=
  if d.any (fun p => p.1 == kv.1) then
    d.map (fun p => if p.1 == kv.1 then kv else p)
  else d ++ [kv]

def dict_merge {α : Type} (d opts : List (String × α)) : List (String × α) :=
  opts.foldl dict_set d

def dict_get {α : Type} (d : List (String × α)) (k : String) : Option α :=
  (d.find? (fun p => p.1 == k)).map Prod.snd

/-! ## SHA-256 (Python `hashlib.sha256(...).hexdigest()`)

A byte-level implementation of FIPS 180-4 SHA-256 over `List Nat`
(bytes), with 32-bit words as `Nat` reduced modulo `2 ^ 32`. -/

/-- Right-rotation of a 32-bit word. -/
def rotr32 (n x : Nat) : Nat :=
  x / 2 ^ n + x % 2 ^ n * 2 ^ (32 - n)

/-- The 64 SHA-256 round constants of FIPS 180-4 (decimal). -/
def shaK : List Nat :=
  [1116352408, 1899447441, 3049323471, 3921009573, 961987163, 1508970993,
   2453635748, 2870763221, 3624381080, 310598401, 607225278, 1426881987,
   1925078388, 2162078206, 2614888103, 3248222580, 3835390401, 4022224774,
   264347078, 604807628, 770255983, 1249150122, 1555081692, 1996064986,
   2554220882, 2821834349, 2952996808, 3210313671, 3336571891, 3584528711,
   113926993, 338241895, 666307205, 773529912, 1294757372, 1396182291,
   1695183700, 1986661051, 2177026350, 2456956037, 2730485921, 2820302411,
   3259730800, 3345764771, 3516065817, 3600352804, 4094571909, 275423344,
   430227734, 506948616, 659060556, 883997877, 958139571, 1322822218,
   1537002063, 1747873779, 1955562222, 2024104815, 2227730452, 2361852424,
   2428436474, 2756734187, 3204031479, 3329325298]

/-- The SHA-256 initial hash value of FIPS 180-4 (decimal). -/
def shaH0 : List Nat :=
  [1779033703, 3144134277, 1013904242, 2773480762, 1359893119, 2600822924,
   528734635, 1541459225]

/-- FIPS 180-4 padding: append `0x80`, zero bytes to reach 56 mod 64,
then the bit length as 8 big-endian bytes. -/
def sha256pad (msg : List Nat) : List Nat :=
  let L := msg.length
  let k := (64 - (L + 9) % 64) % 64
  msg ++ [0x80] ++ List.replicate k 0 ++ bytesBE 8 (L * 8)

/-- Group bytes into big-endian 32-bit words. -/
def toWords : List Nat → List Nat
  | a :: b :: c :: d :: rest =>
      (((a * 256 + b) * 256 + c) * 256 + d) :: toWords rest
  | _ => []

/-- Group a word list into 16-word blocks. -/
def toBlocks (l : List Nat) : List (List Nat) :=
  if l.isEmpty then []
  else l.take 16 :: toBlocks (l.drop 16)
termination_by l.length
decreasing_by
  simp only [List.length_drop]
  cases l with
  | nil => simp [List.isEmpty] at *
  | cons a t => simp only [List.length_cons]; omega

/-- Extend 16 words to the 64-word message schedule. -/
def schedule (block : List Nat) : List Nat :=
  (List.range 48).foldl
    (fun w _ =>
      let n := w.length
      let s0 := rotr32 7 (w.getD (n - 15) 0) ^^^ rotr32 18 (w.getD (n - 15) 0)
        ^^^ w.getD (n - 15) 0 / 2 ^ 3
      let s1 := rotr32 17 (w.getD (n - 2) 0) ^^^ rotr32 19 (w.getD (n - 2) 0)
        ^^^ w.getD (n - 2) 0 / 2 ^ 10
      w ++ [(w.getD (n - 16) 0 + s0 + w.getD (n - 7) 0 + s1) % 2 ^ 32])
    block

/-- One round of the SHA-256 compression function. -/
def shaStep (st : List Nat) (kw : Nat × Nat) : List Nat :=
  match st with
  | [a, b, c, d, e, f, g, h] =>
    let S1 := rotr32 6 e ^^^ rotr32 11 e ^^^ rotr32 25 e
    let ch := (e &&& f) ^^^ ((2 ^ 32 - 1 - e) &&& g)
    let temp1 := (h + S1 + ch + kw.1 + kw.2) % 2 ^ 32
    let S0 := rotr32 2 a ^^^ rotr32 13 a ^^^ rotr32 22 a
    let maj := (a &&& b) ^^^ (a &&& c) ^^^ (b &&& c)
    let temp2 := (S0 + maj) % 2 ^ 32
    [(temp1 + temp2) % 2 ^ 32, a, b, c, (d + temp1) % 2 ^ 32, e, f, g]
  | _ => st

/-- Process one 16-word block. -/
def processBlock (h : List Nat) (block : List Nat) : List Nat :=
  let st := (shaK.zip (schedule block)).foldl shaStep h
  (h.zip st).map (fun p => (p.1 + p.2) % 2 ^ 32)

/-- The eight 32-bit words of the SHA-256 digest of a byte string. -/
def sha256words (msg : List Nat) : List Nat :=
  (toBlocks (toWords (sha256pad msg))).foldl processBlock shaH0

/-- Lowercase hexadecimal digit. -/
def hexChar (n : Nat) : Char :=
  if n < 10 then Char.ofNat (48 + n) else Char.ofNat (97 + (n - 10))

/-- A 32-bit word as 8 lowercase hex characters. -/
def wordToHex (w : Nat) : List Char :=
  (List.range 8).map (fun i => hexChar (w / 16 ^ (7 - i) % 16))

/-- Python `hashlib.sha256(msg).hexdigest()`: the lowercase hex digest. -/
def sha256hex (msg : List Nat) : String :=
  String.mk ((sha256words msg).map wordToHex).flatten

/-! ## DER SubjectPublicKeyInfo and the key fingerprint -/

/-- DER OID encoding of id-ecPublicKey (1.2.840.10045.2.1). -/
def ecPublicKeyOid : List Nat := [0x2a, 0x86, 0x48, 0xce, 0x3d, 0x02, 0x01]

/-- DER OID body of the named curve for each registered bit size:
secp256r1 (1.2.840.10045.3.1.7), secp384r1 (1.3.132.0.34), secp521r1
(1.3.132.0.35). -/
def curveOid : Nat → List Nat
  | 256 => [0x2a, 0x86, 0x48, 0xce, 0x3d, 0x03, 0x01, 0x07]
  | 384 => [0x2b, 0x81, 0x04, 0x00, 0x22]
  | 521 => [0x2b, 0x81, 0x04, 0x00, 0x23]
  | _ => []

/-- Minimal big-endian byte string of a positive integer (used for DER
long-form lengths). -/
def natBytesBE (n : Nat) : List Nat :=
  if n < 256 then [n]
  else natBytesBE (n / 256) ++ [n % 256]
termination_by n
decreasing_by
  have : 0 < n := by omega
  exact Nat.div_lt_self this (by norm_num)

/-- DER definite-length encoding: short form below 128, long form above. -/
def derLen (n : Nat) : List Nat :=
  if n < 128 then [n] else (128 + (natBytesBE n).length) :: natBytesBE n

/-- A DER TLV node: tag, encoded length, content. -/
def derTlv (tag : Nat) (content : List Nat) : List Nat :=
  tag :: derLen content.length ++ content

/-! ## Curve registry (`EC_CURVE_NAMES`, `SIGNING_ALGORITHMS`)

Dictionary lookups `EC_CURVE_NAMES[b]` / `SIGNING_ALGORITHMS[b]` raise
`KeyError` on a missing key; the spec calls this failure
`UnsupportedCurve`. The lookup is modelled as an `Option`-valued table. -/

def EC_CURVE_NAMES : Nat → Option String
  | 256 => some "P-256"
  | 384 => some "P-384"
  | 521 => some "P-521"
  | _ => none

def SIGNING_ALGORITHMS : Nat → Option String
  | 256 => some "ES256"
  | 384 => some "ES384"
  | 521 => some "ES512"
  | _ => none

/-! ## Keys -/

/-- The data of `ec.EllipticCurvePublicKey` that the generator reads:
`public_numbers()` gives the affine coordinates `x`, `y`, and
`curve.key_size` gives the curve bit size. -/
structure EllipticCurvePublicKey where
  curve_size : Nat
  x : Nat
  y : Nat
deriving DecidableEq

/-- A key of a registered curve whose affine coordinates are in range: an
actual curve point has `0 ≤ x, y < p < 2 ^ bitSize`. -/
def ValidKey (pk : EllipticCurvePublicKey) : Prop :=
  (pk.curve_size = 256 ∨ pk.curve_size = 384 ∨ pk.curve_size = 521) ∧
  pk.x < 2 ^ pk.curve_size ∧ pk.y < 2 ^ pk.curve_size

/-- Embedding of `public_key.public_bytes(Encoding.DER,
PublicFormat.SubjectPublicKeyInfo)`: the RFC 5480 SubjectPublicKeyInfo
structure holding the algorithm identifier and the uncompressed
(`0x04 || X || Y`) curve point in a BIT STRING with zero unused bits. -/
def public_bytes_der_spki (pk : EllipticCurvePublicKey) : List Nat :=
  let n := (pk.curve_size + 7) / 8
  let point := 0x04 :: (bytesBE n pk.x ++ bytesBE n pk.y)
  derTlv 0x30
    (derTlv 0x30 (derTlv 0x06 ecPublicKeyOid ++ derTlv 0x06 (curveOid pk.curve_size))
      ++ derTlv 0x03 (0 :: point))

/-- Embedding of `generate_key_fingerprint` (generate.py lines 72-86):
hex-encoded SHA-256 of the DER SubjectPublicKeyInfo encoding of the
public key. -/
def generate_key_fingerprint (public_key : EllipticCurvePublicKey) : String :=
  sha256hex (public_bytes_der_spki public_key)

/-- Errors `convert_key_to_jwk` can raise: `OverflowError` from
`int.to_bytes` when a coordinate does not fit the fixed width, and
`KeyError` from the `EC_CURVE_NAMES` lookup (the spec's
`UnsupportedCurve`). -/
inductive JwkError where
  | overflowError
  | unsupportedCurve
deriving DecidableEq

/-- Embedding of `convert_key_to_jwk` (generate.py lines 44-69): fixed
coordinate width `(curve_size + 7) / 8`, big-endian `to_bytes` (raising
`OverflowError` first, as it runs before the dict literal is built), the
`EC_CURVE_NAMES` lookup, base64url-encoded coordinates, and the
`**options` dict merge. -/
def convert_key_to_jwk (public_key : EllipticCurvePublicKey)
    (options : List (String × String)) :
    Except JwkError (List (String × String)) :=
  let curve_size := public_key.curve_size
  let coordinate_size := (curve_size + 7) / 8
  match to_bytes coordinate_size public_key.x with
  | none => .error .overflowError
  | some x_bytes =>
    match to_bytes coordinate_size public_key.y with
    | none => .error .overflowError
    | some y_bytes =>
      match EC_CURVE_NAMES curve_size with
      | none => .error .unsupportedCurve
      | some crv =>
        .ok (dict_merge
          [("kty", "EC"), ("crv", crv),
           ("x", String.mk (urlsafe_b64encode x_bytes)),
           ("y", String.mk (urlsafe_b64encode y_bytes))]
          options)

/-! ## DID document construction -/

/-- The verification method dictionary built by `create_did_document`
(its `@context`, `id`, `type`, `controller` and `publicKeyJwk` entries). -/
structure VerificationMethod where
  atContext : String
  id : String
  type : String
  controller : String
  publicKeyJwk : List (String × String)
deriving DecidableEq

/-- The DID document dictionary: top-level `id` and `assertionMethod`. -/
structure DidDocument where
  id : String
  assertionMethod : List VerificationMethod
deriving DecidableEq

/-- Embedding of `create_did_document` (generate.py lines 182-210):
computes the fingerprint fragment, looks up the signing algorithm
(`KeyError` on an unregistered bit size, evaluated before the JWK
conversion runs), and assembles the document with a single verification
method whose JWK carries `kid` and `alg` as extra fields. -/
def create_did_document (did : String) (public_key : EllipticCurvePublicKey) :
    Except JwkError DidDocument :=
  let key_id := "#" ++ generate_key_fingerprint public_key
  match SIGNING_ALGORITHMS public_key.curve_size with
  | none => .error .unsupportedCurve
  | some alg =>
    match convert_key_to_jwk public_key [("kid", key_id), ("alg", alg)] with
    | .error e => .error e
    | .ok jwk =>
      .ok
        { id := did
          assertionMethod :=
            [{ atContext := "https://www.w3.org/ns/did/v1"
               id := did ++ key_id
               type := "JsonWebKey2020"
               controller := did
               publicKeyJwk := jwk }] }

/-! ## Key acquisition (`load_or_generate_private_key`)

The file system is an association list from paths to byte strings, and
every observable action (a `print` to stdout, a file write, a
print-and-exit through `die`) is recorded in an effect trace. The PEM
parser `serialization.load_pem_private_key` and the key generator
`ec.generate_private_key(DEFAULT_EC_CURVE)` are external library
collaborators, passed in as explicit arguments (`parse` and the
pre-drawn `fresh_key`); `none` from `parse` models its exception on
unparsable bytes. A failed `write_bytes` is modelled by the `write_ok`
flag. The `die` calls on the load path sit inside the
`try/except Exception` block, but `sys.exit` raises `SystemExit`, which
`except Exception` does not catch, so each `die` terminates the process
with its own message. -/

/-- A private key as the generator uses it: `.public_key()`. -/
structure EllipticCurvePrivateKey where
  public_key : EllipticCurvePublicKey
deriving DecidableEq

/-- Result of `serialization.load_pem_private_key`: an EC private key or
some other kind of private key. -/
inductive ParsedKey where
  | ecKey (k : EllipticCurvePrivateKey)
  | otherKey
deriving DecidableEq

/-- Observable effects of `load_or_generate_private_key`. -/
inductive Effect where
  | printMsg (s : String)
  | fileWrite (path : String) (data : List Nat)
  | dieEffect (message : String)
deriving DecidableEq

/-- True exactly on file-write effects. -/
def isFileWrite : Effect → Bool
  | .fileWrite _ _ => true
  | _ => false

/-- True exactly on print-and-exit effects. -/
def isDieEffect : Effect → Bool
  | .dieEffect _ => true
  | _ => false

/-- The spec's error taxonomy for key acquisition. -/
inductive AcqError where
  | keyLoadError
  | unsupportedKeyType
  | keyPersistError
deriving DecidableEq

/-- Outcome of `load_or_generate_private_key`: a returned key, or process
termination with exit status 1 (via `die`). -/
inductive AcqResult where
  | success (k : EllipticCurvePrivateKey)
  | exited (err : AcqError)
deriving DecidableEq

/-- A file system as a path-indexed dictionary of byte strings. -/
def FileSystem : Type := List (String × List Nat)

/-- Embedding of `load_or_generate_private_key` (generate.py lines
142-179). Returns the outcome, the effect trace in order, and the file
system after the call. `key_path.exists()` and `read_bytes` are the
dictionary lookup; `key_path.write_bytes` appends to the dictionary
(`write_ok = false` models an `OSError` from the write). -/
def load_or_generate_private_key (parse : List Nat → Option ParsedKey)
    (fresh_key : EllipticCurvePrivateKey)
    (private_bytes_pem : EllipticCurvePrivateKey → List Nat)
    (fs : FileSystem) (write_ok : Bool) (key_path : String) :
    AcqResult × List Effect × FileSystem :=
  match dict_get fs key_path with
  | some bytes =>
    let msg := "Using existing private key at `" ++ key_path ++ "`"
    (match parse bytes with
     | none =>
       (.exited .keyLoadError,
        [.printMsg msg, .dieEffect "Could not load private key"], fs)
     | some .otherKey =>
       (.exited .unsupportedKeyType,
        [.printMsg msg, .dieEffect "Only elliptic curve keys are supported"], fs)
     | some (.ecKey k) => (.success k, [.printMsg msg], fs))
  | none =>
    let msg := "Generating new private key at `" ++ key_path ++ "`"
    let pem := private_bytes_pem fresh_key
    if write_ok then
      (.success fresh_key,
       [.printMsg msg, .fileWrite key_path pem],
       dict_set fs (key_path, pem))
    else
      (.exited .keyPersistError,
       [.printMsg msg, .dieEffect "Could not write private key"], fs)

/-! ## Folder-name validation (`is_valid_did_folder_name`)

The source validates with `re.fullmatch` against the pattern
`\.[a-zA-Z0-9_-]+|[a-zA-Z0-9_-]+`. The pattern is transcribed
constructor-by-constructor into a small regular-expression syntax with a
standard matching semantics, and the executable validator is proved to
agree with it. -/

/-- Membership in the character class `[a-zA-Z0-9_-]`. -/
def isWordChar (c : Char) : Bool :=
  (97 ≤ c.toNat && c.toNat ≤ 122) || (65 ≤ c.toNat && c.toNat ≤ 90) ||
  (48 ≤ c.toNat && c.toNat ≤ 57) || c.toNat == 95 || c.toNat == 45

/-- Regular expressions over characters: a character class, concatenation,
alternation, and one-or-more repetition. -/
inductive Regex where
  | cls (p : Char → Bool)
  | cat (a b : Regex)
  | alt (a b : Regex)
  | plus (a : Regex)

/-- The standard matching semantics of `Regex` (what `re.fullmatch`
accepts: the whole string belongs to the language). -/
inductive Matches : Regex → List Char → Prop where
  | cls {p : Char → Bool} {c : Char} : p c = true → Matches (.cls p) [c]
  | cat {a b : Regex} {l1 l2 : List Char} :
      Matches a l1 → Matches b l2 → Matches (.cat a b) (l1 ++ l2)
  | altL {a b : Regex} {l : List Char} : Matches a l → Matches (.alt a b) l
  | altR {a b : Regex} {l : List Char} : Matches b l → Matches (.alt a b) l
  | plusOne {a : Regex} {l : List Char} : Matches a l → Matches (.plus a) l
  | plusMore {a : Regex} {l1 l2 : List Char} :
      Matches a l1 → Matches (.plus a) l2 → Matches (.plus a) (l1 ++ l2)

/-- The source pattern `\.[a-zA-Z0-9_-]+|[a-zA-Z0-9_-]+`, transcribed
node by node: a literal dot then one-or-more word characters, or
one-or-more word characters. -/
def folderPattern : Regex :=
  .alt (.cat (.cls (fun c => c == '.')) (.plus (.cls isWordChar)))
    (.plus (.cls isWordChar))

/-- Embedding of `is_valid_did_folder_name` (generate.py lines 89-99),
`bool(re.fullmatch(pattern, name))`, as an executable matcher for this
specific pattern; `is_valid_matches_folderPattern` below proves it
equivalent to the matching semantics of the transcribed pattern. -/
def is_valid_did_folder_name (name : String) : Bool :=
  match name.data with
  | [] => false
  | c :: rest =>
    if c == '.' then !rest.isEmpty && rest.all isWordChar
    else (c :: rest).all isWordChar

/-! ## Lemmas -/

theorem bytesBE_length (len n : Nat) : (bytesBE len n).length = len := by
  induction len generalizing n with
  | zero => rfl
  | succ k ih => simp [bytesBE, ih]

theorem bytesBE_lt_256 (len n : Nat) : ∀ b ∈ bytesBE len n, b < 256 := by
  induction len generalizing n with
  | zero => intro b hb; simp [bytesBE] at hb
  | succ k ih =>
    intro b hb
    simp only [bytesBE, List.mem_append, List.mem_singleton] at hb
    rcases hb with hb | hb
    · exact ih (n / 256) b hb
    · subst hb; exact Nat.mod_lt _ (by norm_num)

theorem fromBytesBE_bytesBE (len n : Nat) (h : n < 256 ^ len) :
    fromBytesBE (bytesBE len n) = n := by
  induction len generalizing n with
  | zero =>
    simp [Nat.pow_zero] at h
    simp [bytesBE, fromBytesBE, h]
  | succ k ih =>
    have hdiv : n / 256 < 256 ^ k := by
      rw [Nat.div_lt_iff_lt_mul (by norm_num : 0 < 256)]
      calc n < 256 ^ (k + 1) := h
        _ = 256 ^ k * 256 := by ring
    have hrec := ih (n / 256) hdiv
    simp only [bytesBE, fromBytesBE, List.foldl_append, List.foldl_cons,
      List.foldl_nil]
    simp only [fromBytesBE] at hrec
    rw [hrec]
    omega

theorem decodeChar_encodeChar : ∀ n < 64, decodeChar (encodeChar n) = n := by
  decide

theorem encodeChar_ne_pad : ∀ n < 64, encodeChar n ≠ '=' := by
  decide

theorem urlsafe_b64encode_length (l : List Nat) :
    (urlsafe_b64encode l).length = (l.length + 2) / 3 * 4 := by
  induction l using urlsafe_b64encode.induct with
  | case1 => simp [urlsafe_b64encode]
  | case2 a => simp [urlsafe_b64encode]
  | case3 a b => simp [urlsafe_b64encode]
  | case4 a b c rest ih =>
    simp only [urlsafe_b64encode, List.length_cons, ih]
    omega

theorem urlsafe_b64decode_encode (l : List Nat) (h : ∀ b ∈ l, b < 256) :
    urlsafe_b64decode (urlsafe_b64encode l) = l := by
  induction l using urlsafe_b64encode.induct with
  | case1 => rfl
  | case2 a =>
    have ha : a < 256 := h a (by simp)
    simp only [urlsafe_b64encode, urlsafe_b64decode]
    rw [if_pos trivial]
    rw [decodeChar_encodeChar _ (by omega), decodeChar_encodeChar _ (by omega)]
    congr 1
    omega
  | case3 a b =>
    have ha : a < 256 := h a (by simp)
    have hb : b < 256 := h b (by simp)
    simp only [urlsafe_b64encode, urlsafe_b64decode]
    rw [if_neg (encodeChar_ne_pad _ (by omega))]
    rw [if_pos trivial]
    rw [decodeChar_encodeChar _ (by omega), decodeChar_encodeChar _ (by omega),
      decodeChar_encodeChar _ (by omega)]
    congr 1
    · omega
    · congr 1
      omega
  | case4 a b c rest ih =>
    have ha : a < 256 := h a (by simp)
    have hb : b < 256 := h b (by simp)
    have hc : c < 256 := h c (by simp)
    simp only [urlsafe_b64encode, urlsafe_b64decode]
    rw [if_neg (encodeChar_ne_pad _ (by omega)),
      if_neg (encodeChar_ne_pad _ (by omega))]
    rw [decodeChar_encodeChar _ (by omega), decodeChar_encodeChar _ (by omega),
      decodeChar_encodeChar _ (by omega), decodeChar_encodeChar _ (by omega)]
    rw [ih (fun x hx => h x (by simp [hx]))]
    congr 1
    · omega
    · congr 1
      · omega
      · congr 1
        omega

theorem urlsafe_b64encode_ne_nil (l : List Nat) (h : l ≠ []) :
    urlsafe_b64encode l ≠ [] := by
  match l with
  | [] => exact absurd rfl h
  | [a] => simp [urlsafe_b64encode]
  | [a, b] => simp [urlsafe_b64encode]
  | a :: b :: c :: rest => simp [urlsafe_b64encode]

/-- When the byte length is divisible by three, no padding character
appears in the encoding. -/
theorem urlsafe_b64encode_no_pad (l : List Nat) (h : ∀ b ∈ l, b < 256)
    (h3 : l.length % 3 = 0) : '=' ∉ urlsafe_b64encode l := by
  induction l using urlsafe_b64encode.induct with
  | case1 => simp [urlsafe_b64encode]
  | case2 a => simp at h3
  | case3 a b => simp at h3
  | case4 a b c rest ih =>
    have ha : a < 256 := h a (by simp)
    have hb : b < 256 := h b (by simp)
    have hc : c < 256 := h c (by simp)
    have hr : rest.length % 3 = 0 := by
      simp only [List.length_cons] at h3
      omega
    intro hmem
    simp only [urlsafe_b64encode, List.mem_cons] at hmem
    rcases hmem with hx | hx | hx | hx | hx
    · exact encodeChar_ne_pad _ (by omega) hx.symm
    · exact encodeChar_ne_pad _ (by omega) hx.symm
    · exact encodeChar_ne_pad _ (by omega) hx.symm
    · exact encodeChar_ne_pad _ (by omega) hx.symm
    · exact ih (fun x hx2 => h x (by simp [hx2])) hr hx

/-- When the byte length is ≡ 2 mod 3, the encoding ends in a padding
character. -/
theorem urlsafe_b64encode_last_pad (l : List Nat) (h3 : l.length % 3 = 2) :
    (urlsafe_b64encode l).getLast? = some '=' := by
  induction l using urlsafe_b64encode.induct with
  | case1 => simp at h3
  | case2 a => simp at h3
  | case3 a b => simp [urlsafe_b64encode]
  | case4 a b c rest ih =>
    have hr : rest.length % 3 = 2 := by
      simp only [List.length_cons] at h3
      omega
    have heq : urlsafe_b64encode (a :: b :: c :: rest)
        = [encodeChar (a / 4), encodeChar (a % 4 * 16 + b / 16),
           encodeChar (b % 16 * 4 + c / 64), encodeChar (c % 64)]
          ++ urlsafe_b64encode rest := rfl
    rw [heq, List.getLast?_append, ih hr]
    rfl

theorem find?_key_override {α : Type} (d : List (String × α))
    (kv : String × α) (k : String) (hne : kv.1 ≠ k) :
    List.find? (fun p => p.1 == k)
        (d.map (fun p => if p.1 == kv.1 then kv else p))
      = List.find? (fun p => p.1 == k) d := by
  induction d with
  | nil => rfl
  | cons p rest ih =>
    by_cases hp : p.1 = kv.1
    · have hif : (if (p.1 == kv.1) = true then kv else p) = kv := by
        simp [hp]
      have hkvk : (kv.1 == k) = false := beq_eq_false_iff_ne.mpr hne
      have hpk : (p.1 == k) = false := beq_eq_false_iff_ne.mpr (hp ▸ hne)
      simp only [List.map_cons, List.find?_cons, hif, hkvk, hpk]
      exact ih
    · have hif : (if (p.1 == kv.1) = true then kv else p) = p := by
        simp [hp]
      simp only [List.map_cons, List.find?_cons, hif]
      by_cases hk : p.1 = k
      · simp [hk]
      · have h2 : (p.1 == k) = false := beq_eq_false_iff_ne.mpr hk
        simp only [h2]
        exact ih

theorem dict_get_dict_set_ne {α : Type} (d : List (String × α))
    (kv : String × α) (k : String) (hne : kv.1 ≠ k) :
    dict_get (dict_set d kv) k = dict_get d k := by
  unfold dict_set
  split
  · unfold dict_get
    rw [find?_key_override d kv k hne]
  · unfold dict_get
    rw [List.find?_append]
    have hnone : List.find? (fun p => p.1 == k) [kv] = none := by
      simp only [List.find?_cons, beq_eq_false_iff_ne.mpr hne]
      rfl
    rw [hnone]
    simp

theorem dict_get_dict_merge {α : Type} (d opts : List (String × α))
    (k : String) (h : ∀ p ∈ opts, p.1 ≠ k) :
    dict_get (dict_merge d opts) k = dict_get d k := by
  induction opts generalizing d with
  | nil => rfl
  | cons p rest ih =>
    unfold dict_merge
    simp only [List.foldl_cons]
    have := ih (dict_set d p) (fun q hq => h q (by simp [hq]))
    unfold dict_merge at this
    rw [this]
    exact dict_get_dict_set_ne d p k (h p (by simp))

theorem matches_plus_cls {p : Char → Bool} {l : List Char} :
    Matches (.plus (.cls p)) l ↔ l ≠ [] ∧ ∀ c ∈ l, p c = true := by
  constructor
  · intro h
    generalize hr : Regex.plus (.cls p) = r at h
    induction h with
    | cls hp => exact absurd hr (by intro hc; cases hc)
    | cat h1 h2 ih1 ih2 => exact absurd hr (by intro hc; cases hc)
    | altL h1 ih => exact absurd hr (by intro hc; cases hc)
    | altR h1 ih => exact absurd hr (by intro hc; cases hc)
    | plusOne h1 ih =>
      cases hr
      cases h1 with
      | cls hp => exact ⟨by simp, by simpa using hp⟩
    | plusMore h1 h2 ih1 ih2 =>
      cases hr
      cases h1 with
      | cls hp =>
        rcases ih2 rfl with ⟨hne, hall⟩
        refine ⟨by simp, ?_⟩
        intro c hc
        rcases List.mem_append.mp hc with hc | hc
        · rcases List.mem_singleton.mp hc with rfl
          exact hp
        · exact hall c hc
  · rintro ⟨hne, hall⟩
    induction l with
    | nil => exact absurd rfl hne
    | cons c rest ih =>
      cases rest with
      | nil => exact Matches.plusOne (Matches.cls (hall c (by simp)))
      | cons d tail =>
        have hrec := ih (by simp) (fun x hx => hall x (by simp [hx]))
        exact @Matches.plusMore _ [c] _ (Matches.cls (hall c (by simp))) hrec

theorem matches_cat_cls {p : Char → Bool} {r : Regex} {l : List Char} :
    Matches (.cat (.cls p) r) l ↔
      ∃ c rest, l = c :: rest ∧ p c = true ∧ Matches r rest := by
  constructor
  · intro h
    generalize hr : Regex.cat (.cls p) r = q at h
    cases h with
    | cls hp => exact absurd hr (by intro hc; cases hc)
    | cat h1 h2 =>
      cases hr
      cases h1 with
      | cls hp => exact ⟨_, _, rfl, hp, h2⟩
    | altL h1 => exact absurd hr (by intro hc; cases hc)
    | altR h1 => exact absurd hr (by intro hc; cases hc)
    | plusOne h1 => exact absurd hr (by intro hc; cases hc)
    | plusMore h1 h2 => exact absurd hr (by intro hc; cases hc)
  · rintro ⟨c, rest, rfl, hp, hm⟩
    exact @Matches.cat _ _ [c] _ (Matches.cls hp) hm

theorem is_valid_nil : is_valid_did_folder_name (String.mk []) = false := rfl

theorem is_valid_cons (c : Char) (rest : List Char) :
    is_valid_did_folder_name (String.mk (c :: rest))
      = if c == '.' then !rest.isEmpty && rest.all isWordChar
        else (c :: rest).all isWordChar := rfl

theorem is_valid_matches_folderPattern (name : String) :
    is_valid_did_folder_name name = true ↔ Matches folderPattern name.data := by
  obtain ⟨l⟩ := name
  have hdotword : isWordChar '.' = false := by decide
  show is_valid_did_folder_name (String.mk l) = true ↔ Matches folderPattern l
  cases l with
  | nil =>
    rw [is_valid_nil]
    constructor
    · intro h
      cases h
    · intro h
      cases h with
      | altL h1 =>
        rcases matches_cat_cls.mp h1 with ⟨c, rest, habs, _, _⟩
        cases habs
      | altR h1 =>
        exact absurd rfl (matches_plus_cls.mp h1).1
  | cons c rest =>
    rw [is_valid_cons]
    by_cases hc : c = '.'
    · subst hc
      rw [if_pos (by simp)]
      constructor
      · intro h
        rw [Bool.and_eq_true] at h
        have hne : rest ≠ [] := by
          intro hnil
          rw [hnil] at h
          simp [List.isEmpty] at h
        have hall : ∀ x ∈ rest, isWordChar x = true :=
          List.all_eq_true.mp h.2
        apply Matches.altL
        rw [show ('.' :: rest : List Char) = ['.'] ++ rest from rfl]
        exact Matches.cat (Matches.cls (by simp))
          (matches_plus_cls.mpr ⟨hne, hall⟩)
      · intro h
        cases h with
        | altL h1 =>
          rcases matches_cat_cls.mp h1 with ⟨c2, rest2, heq, hdot, hm⟩
          have hre : rest = rest2 := by
            injection heq
          subst hre
          have hne := (matches_plus_cls.mp hm).1
          have hall := (matches_plus_cls.mp hm).2
          rw [Bool.and_eq_true]
          constructor
          · cases rest with
            | nil => exact absurd rfl hne
            | cons x t => simp [List.isEmpty]
          · exact List.all_eq_true.mpr hall
        | altR h1 =>
          have hall := (matches_plus_cls.mp h1).2
          have := hall '.' (by simp)
          rw [hdotword] at this
          cases this
    · rw [if_neg (by simp [hc])]
      constructor
      · intro h
        apply Matches.altR
        exact matches_plus_cls.mpr ⟨by simp, List.all_eq_true.mp h⟩
      · intro h
        cases h with
        | altL h1 =>
          rcases matches_cat_cls.mp h1 with ⟨c2, rest2, heq, hdot, hm⟩
          have hcc : c = c2 := by
            injection heq
          have : c2 = '.' := by simpa using hdot
          exact absurd (hcc.trans this) hc
        | altR h1 =>
          exact List.all_eq_true.mpr (matches_plus_cls.mp h1).2

/-! ## Claim theorems -/

theorem coord_fits (b x : Nat) (h : x < 2 ^ b) :
    x < 256 ^ ((b + 7) / 8) := by
  have h8 : b ≤ 8 * ((b + 7) / 8) := by omega
  calc x < 2 ^ b := h
    _ ≤ 2 ^ (8 * ((b + 7) / 8)) := Nat.pow_le_pow_right (by norm_num) h8
    _ = 256 ^ ((b + 7) / 8) := by
        rw [Nat.pow_mul]

theorem convert_key_to_jwk_eval (pk : EllipticCurvePublicKey)
    (opts : List (String × String)) (crv : String)
    (hx : pk.x < 256 ^ ((pk.curve_size + 7) / 8))
    (hy : pk.y < 256 ^ ((pk.curve_size + 7) / 8))
    (hcrv : EC_CURVE_NAMES pk.curve_size = some crv) :
    convert_key_to_jwk pk opts = .ok (dict_merge
      [("kty", "EC"), ("crv", crv),
       ("x", String.mk (urlsafe_b64encode (bytesBE ((pk.curve_size + 7) / 8) pk.x))),
       ("y", String.mk (urlsafe_b64encode (bytesBE ((pk.curve_size + 7) / 8) pk.y)))]
      opts) := by
  have ex : to_bytes ((pk.curve_size + 7) / 8) pk.x
      = some (bytesBE ((pk.curve_size + 7) / 8) pk.x) := if_pos hx
  have ey : to_bytes ((pk.curve_size + 7) / 8) pk.y
      = some (bytesBE ((pk.curve_size + 7) / 8) pk.y) := if_pos hy
  simp only [convert_key_to_jwk, ex, ey, hcrv]

/-- Claim C2: `create_did_document` is deterministic — its output depends
only on the DID string and the public key, so two calls with the same
arguments return structurally identical documents. -/
theorem claim_C2_document_deterministic (did1 did2 : String)
    (pk1 pk2 : EllipticCurvePublicKey) (hdid : did1 = did2) (hpk : pk1 = pk2) :
    create_did_document did1 pk1 = create_did_document did2 pk2 := by
  rw [hdid, hpk]

theorem claim_C2_witness :
    create_did_document "did:web:example.github.io" ⟨256, 5, 7⟩
      = create_did_document "did:web:example.github.io" ⟨256, 5, 7⟩ :=
  claim_C2_document_deterministic _ _ _ _ rfl rfl

/-- Claim C3: the registry maps 256 to P-256/ES256, 384 to P-384/ES384,
521 to P-521/ES512, and every other bit size to a lookup failure (no
default value). -/
theorem claim_C3_curve_registry :
    EC_CURVE_NAMES 256 = some "P-256" ∧ SIGNING_ALGORITHMS 256 = some "ES256" ∧
    EC_CURVE_NAMES 384 = some "P-384" ∧ SIGNING_ALGORITHMS 384 = some "ES384" ∧
    EC_CURVE_NAMES 521 = some "P-521" ∧ SIGNING_ALGORITHMS 521 = some "ES512" ∧
    ∀ b : Nat, b ≠ 256 → b ≠ 384 → b ≠ 521 →
      EC_CURVE_NAMES b = none ∧ SIGNING_ALGORITHMS b = none := by
  refine ⟨rfl, rfl, rfl, rfl, rfl, rfl, ?_⟩
  intro b h1 h2 h3
  constructor
  · unfold EC_CURVE_NAMES
    split
    · exact absurd rfl h1
    · exact absurd rfl h2
    · exact absurd rfl h3
    · rfl
  · unfold SIGNING_ALGORITHMS
    split
    · exact absurd rfl h1
    · exact absurd rfl h2
    · exact absurd rfl h3
    · rfl

theorem claim_C3_witness :
    EC_CURVE_NAMES 512 = none ∧ SIGNING_ALGORITHMS 512 = none :=
  claim_C3_curve_registry.2.2.2.2.2.2 512 (by decide) (by decide) (by decide)

/-- Claim C8: `is_valid_did_folder_name` accepts exactly the language of
the pattern `\.[a-zA-Z0-9_-]+|[a-zA-Z0-9_-]+` (a literal leading dot
followed by one or more word characters, or one or more word characters
alone); in particular a name containing `/` is rejected. -/
theorem claim_C8_folder_name_grammar :
    (∀ name : String,
      is_valid_did_folder_name name = true ↔ Matches folderPattern name.data) ∧
    is_valid_did_folder_name "a/b" = false := by
  constructor
  · exact is_valid_matches_folderPattern
  · rfl

theorem convert_key_to_jwk_eval_none (pk : EllipticCurvePublicKey)
    (opts : List (String × String))
    (hx : pk.x < 256 ^ ((pk.curve_size + 7) / 8))
    (hy : pk.y < 256 ^ ((pk.curve_size + 7) / 8))
    (hcrv : EC_CURVE_NAMES pk.curve_size = none) :
    convert_key_to_jwk pk opts = .error .unsupportedCurve := by
  have ex : to_bytes ((pk.curve_size + 7) / 8) pk.x
      = some (bytesBE ((pk.curve_size + 7) / 8) pk.x) := if_pos hx
  have ey : to_bytes ((pk.curve_size + 7) / 8) pk.y
      = some (bytesBE ((pk.curve_size + 7) / 8) pk.y) := if_pos hy
  simp only [convert_key_to_jwk, ex, ey, hcrv]

/-- Claim C10: for every public key whose affine coordinates are in range
for its curve bit size, the fixed-width coordinate rendering is total
(both coordinates are below `2 ^ (8 * ceil(bitSize / 8))`, so `to_bytes`
never overflows and `convert_key_to_jwk` never raises `OverflowError`);
the only possible failure is the curve-name lookup on an unregistered bit
size. -/
theorem claim_C10_coordinate_rendering_total (pk : EllipticCurvePublicKey)
    (opts : List (String × String))
    (hx : pk.x < 2 ^ pk.curve_size) (hy : pk.y < 2 ^ pk.curve_size) :
    (to_bytes ((pk.curve_size + 7) / 8) pk.x).isSome = true ∧
    (to_bytes ((pk.curve_size + 7) / 8) pk.y).isSome = true ∧
    pk.x < 2 ^ (8 * ((pk.curve_size + 7) / 8)) ∧
    pk.y < 2 ^ (8 * ((pk.curve_size + 7) / 8)) ∧
    convert_key_to_jwk pk opts ≠ .error .overflowError ∧
    (∀ crv, EC_CURVE_NAMES pk.curve_size = some crv →
      ∃ jwk, convert_key_to_jwk pk opts = .ok jwk) ∧
    (EC_CURVE_NAMES pk.curve_size = none →
      convert_key_to_jwk pk opts = .error .unsupportedCurve) := by
  have hx8 := coord_fits pk.curve_size pk.x hx
  have hy8 := coord_fits pk.curve_size pk.y hy
  have hpow : (256 : Nat) ^ ((pk.curve_size + 7) / 8)
      = 2 ^ (8 * ((pk.curve_size + 7) / 8)) := by
    rw [Nat.pow_mul]
  refine ⟨?_, ?_, ?_, ?_, ?_, ?_, ?_⟩
  · simp [to_bytes, hx8]
  · simp [to_bytes, hy8]
  · rw [← hpow]
    exact hx8
  · rw [← hpow]
    exact hy8
  · rcases hc : EC_CURVE_NAMES pk.curve_size with _ | crv
    · rw [convert_key_to_jwk_eval_none pk opts hx8 hy8 hc]
      simp
    · rw [convert_key_to_jwk_eval pk opts crv hx8 hy8 hc]
      simp
  · intro crv hc
    exact ⟨_, convert_key_to_jwk_eval pk opts crv hx8 hy8 hc⟩
  · intro hc
    exact convert_key_to_jwk_eval_none pk opts hx8 hy8 hc

theorem claim_C10_witness :
    (3 : Nat) < 2 ^ 10 ∧ (4 : Nat) < 2 ^ 10 ∧
    ((to_bytes 2 3).isSome = true ∧
     (to_bytes 2 4).isSome = true ∧
     (3 : Nat) < 2 ^ 16 ∧
     (4 : Nat) < 2 ^ 16 ∧
     convert_key_to_jwk ⟨10, 3, 4⟩ [] ≠ .error .overflowError ∧
     (∀ crv, EC_CURVE_NAMES 10 = some crv →
       ∃ jwk, convert_key_to_jwk ⟨10, 3, 4⟩ [] = .ok jwk) ∧
     (EC_CURVE_NAMES 10 = none →
       convert_key_to_jwk ⟨10, 3, 4⟩ [] = .error .unsupportedCurve)) :=
  ⟨by decide, by decide,
   claim_C10_coordinate_rendering_total ⟨10, 3, 4⟩ [] (by decide) (by decide)⟩

/-- Claim C1: on a registered curve, the JWK fields `x` and `y` are the
base64url encodings of byte strings of exactly `ceil(bitSize / 8)` bytes
that render each coordinate as a fixed-width big-endian unsigned integer
(decoding gives back exactly those bytes, and reading them big-endian
gives back the coordinate, so short values are left-zero-padded). -/
theorem claim_C1_jwk_coordinate_bytes (pk : EllipticCurvePublicKey)
    (opts : List (String × String)) (hv : ValidKey pk)
    (hxk : ∀ p ∈ opts, p.1 ≠ "x") (hyk : ∀ p ∈ opts, p.1 ≠ "y") :
    ∃ jwk, convert_key_to_jwk pk opts = .ok jwk ∧
      dict_get jwk "x" = some (String.mk
        (urlsafe_b64encode (bytesBE ((pk.curve_size + 7) / 8) pk.x))) ∧
      dict_get jwk "y" = some (String.mk
        (urlsafe_b64encode (bytesBE ((pk.curve_size + 7) / 8) pk.y))) ∧
      (bytesBE ((pk.curve_size + 7) / 8) pk.x).length = (pk.curve_size + 7) / 8 ∧
      (bytesBE ((pk.curve_size + 7) / 8) pk.y).length = (pk.curve_size + 7) / 8 ∧
      urlsafe_b64decode (urlsafe_b64encode (bytesBE ((pk.curve_size + 7) / 8) pk.x))
        = bytesBE ((pk.curve_size + 7) / 8) pk.x ∧
      urlsafe_b64decode (urlsafe_b64encode (bytesBE ((pk.curve_size + 7) / 8) pk.y))
        = bytesBE ((pk.curve_size + 7) / 8) pk.y ∧
      fromBytesBE (bytesBE ((pk.curve_size + 7) / 8) pk.x) = pk.x ∧
      fromBytesBE (bytesBE ((pk.curve_size + 7) / 8) pk.y) = pk.y := by
  obtain ⟨hreg, hxlt, hylt⟩ := hv
  have hx8 := coord_fits pk.curve_size pk.x hxlt
  have hy8 := coord_fits pk.curve_size pk.y hylt
  obtain ⟨crv, hcrv⟩ : ∃ crv, EC_CURVE_NAMES pk.curve_size = some crv := by
    rcases hreg with h | h | h <;> rw [h] <;> exact ⟨_, rfl⟩
  refine ⟨_, convert_key_to_jwk_eval pk opts crv hx8 hy8 hcrv, ?_, ?_,
    bytesBE_length _ _, bytesBE_length _ _,
    urlsafe_b64decode_encode _ (bytesBE_lt_256 _ _),
    urlsafe_b64decode_encode _ (bytesBE_lt_256 _ _),
    fromBytesBE_bytesBE _ _ hx8, fromBytesBE_bytesBE _ _ hy8⟩
  · rw [dict_get_dict_merge _ _ _ hxk]
    rfl
  · rw [dict_get_dict_merge _ _ _ hyk]
    rfl

theorem claim_C1_witness :
    ValidKey ⟨256, 5, 7⟩ ∧
    (∃ jwk, convert_key_to_jwk ⟨256, 5, 7⟩ [] = .ok jwk ∧
      dict_get jwk "x" = some (String.mk (urlsafe_b64encode (bytesBE 32 5))) ∧
      dict_get jwk "y" = some (String.mk (urlsafe_b64encode (bytesBE 32 7))) ∧
      (bytesBE 32 5).length = 32 ∧
      (bytesBE 32 7).length = 32 ∧
      urlsafe_b64decode (urlsafe_b64encode (bytesBE 32 5)) = bytesBE 32 5 ∧
      urlsafe_b64decode (urlsafe_b64encode (bytesBE 32 7)) = bytesBE 32 7 ∧
      fromBytesBE (bytesBE 32 5) = 5 ∧
      fromBytesBE (bytesBE 32 7) = 7) :=
  ⟨⟨Or.inl rfl, by decide, by decide⟩,
   claim_C1_jwk_coordinate_bytes ⟨256, 5, 7⟩ []
     ⟨Or.inl rfl, by decide, by decide⟩ (by simp) (by simp)⟩

/-- Claim C9: JWK coordinate strings keep their base64 `=` padding: on the
256-bit curve `x` and `y` are 44 characters ending in `=`, while on the
384-bit and 521-bit curves (48 and 66 coordinate bytes, divisible by 3)
they contain no `=` at all. -/
theorem claim_C9_base64_padding (pk : EllipticCurvePublicKey)
    (opts : List (String × String)) (hv : ValidKey pk)
    (hxk : ∀ p ∈ opts, p.1 ≠ "x") (hyk : ∀ p ∈ opts, p.1 ≠ "y") :
    ∃ jwk xs ys, convert_key_to_jwk pk opts = .ok jwk ∧
      dict_get jwk "x" = some (String.mk xs) ∧
      dict_get jwk "y" = some (String.mk ys) ∧
      (pk.curve_size = 256 →
        xs.length = 44 ∧ xs.getLast? = some '=' ∧
        ys.length = 44 ∧ ys.getLast? = some '=') ∧
      ((pk.curve_size = 384 ∨ pk.curve_size = 521) →
        '=' ∉ xs ∧ '=' ∉ ys) := by
  obtain ⟨hreg, hxlt, hylt⟩ := hv
  have hx8 := coord_fits pk.curve_size pk.x hxlt
  have hy8 := coord_fits pk.curve_size pk.y hylt
  obtain ⟨crv, hcrv⟩ : ∃ crv, EC_CURVE_NAMES pk.curve_size = some crv := by
    rcases hreg with h | h | h <;> rw [h] <;> exact ⟨_, rfl⟩
  refine ⟨_, urlsafe_b64encode (bytesBE ((pk.curve_size + 7) / 8) pk.x),
    urlsafe_b64encode (bytesBE ((pk.curve_size + 7) / 8) pk.y),
    convert_key_to_jwk_eval pk opts crv hx8 hy8 hcrv, ?_, ?_, ?_, ?_⟩
  · rw [dict_get_dict_merge _ _ _ hxk]
    rfl
  · rw [dict_get_dict_merge _ _ _ hyk]
    rfl
  · intro h256
    rw [h256]
    have hlen : ((256 + 7) / 8 : Nat) = 32 := by norm_num
    rw [hlen]
    have hx32 : (bytesBE 32 pk.x).length = 32 := bytesBE_length _ _
    have hy32 : (bytesBE 32 pk.y).length = 32 := bytesBE_length _ _
    refine ⟨?_, ?_, ?_, ?_⟩
    · rw [urlsafe_b64encode_length, hx32]
    · exact urlsafe_b64encode_last_pad _ (by rw [hx32])
    · rw [urlsafe_b64encode_length, hy32]
    · exact urlsafe_b64encode_last_pad _ (by rw [hy32])
  · intro hcase
    rcases hcase with h | h <;> rw [h]
    · have hn : ((384 + 7) / 8 : Nat) = 48 := by norm_num
      rw [hn]
      exact ⟨urlsafe_b64encode_no_pad _ (bytesBE_lt_256 _ _)
          (by rw [bytesBE_length]),
        urlsafe_b64encode_no_pad _ (bytesBE_lt_256 _ _)
          (by rw [bytesBE_length])⟩
    · have hn : ((521 + 7) / 8 : Nat) = 66 := by norm_num
      rw [hn]
      exact ⟨urlsafe_b64encode_no_pad _ (bytesBE_lt_256 _ _)
          (by rw [bytesBE_length]),
        urlsafe_b64encode_no_pad _ (bytesBE_lt_256 _ _)
          (by rw [bytesBE_length])⟩

theorem claim_C9_witness :
    ValidKey ⟨256, 5, 7⟩ ∧
    (∃ jwk xs ys, convert_key_to_jwk ⟨256, 5, 7⟩ [] = .ok jwk ∧
      dict_get jwk "x" = some (String.mk xs) ∧
      dict_get jwk "y" = some (String.mk ys) ∧
      ((256 : Nat) = 256 →
        xs.length = 44 ∧ xs.getLast? = some '=' ∧
        ys.length = 44 ∧ ys.getLast? = some '=') ∧
      (((256 : Nat) = 384 ∨ (256 : Nat) = 521) →
        '=' ∉ xs ∧ '=' ∉ ys)) :=
  ⟨⟨Or.inl rfl, by decide, by decide⟩,
   claim_C9_base64_padding ⟨256, 5, 7⟩ []
     ⟨Or.inl rfl, by decide, by decide⟩ (by simp) (by simp)⟩

/-- Claim C4: on a registered curve, the document has top-level `id` equal
to the DID and exactly one verification method, of type
`JsonWebKey2020`, controlled by the DID, whose `id` is the DID followed by
`#` and the key fingerprint and whose JWK `kid` is `#` followed by the
same fingerprint — both fragments come from the one
`generate_key_fingerprint` application. -/
theorem claim_C4_document_structure (did : String)
    (pk : EllipticCurvePublicKey) (hv : ValidKey pk) :
    ∃ vm : VerificationMethod,
      create_did_document did pk = .ok { id := did, assertionMethod := [vm] } ∧
      vm.type = "JsonWebKey2020" ∧
      vm.controller = did ∧
      vm.id = did ++ ("#" ++ generate_key_fingerprint pk) ∧
      dict_get vm.publicKeyJwk "kid"
        = some ("#" ++ generate_key_fingerprint pk) := by
  obtain ⟨hreg, hxlt, hylt⟩ := hv
  have hx8 := coord_fits pk.curve_size pk.x hxlt
  have hy8 := coord_fits pk.curve_size pk.y hylt
  obtain ⟨crv, hcrv⟩ : ∃ crv, EC_CURVE_NAMES pk.curve_size = some crv := by
    rcases hreg with h | h | h <;> rw [h] <;> exact ⟨_, rfl⟩
  obtain ⟨alg, halg⟩ : ∃ alg, SIGNING_ALGORITHMS pk.curve_size = some alg := by
    rcases hreg with h | h | h <;> rw [h] <;> exact ⟨_, rfl⟩
  have hconv := convert_key_to_jwk_eval pk
    [("kid", "#" ++ generate_key_fingerprint pk), ("alg", alg)] crv hx8 hy8 hcrv
  refine ⟨⟨"https://www.w3.org/ns/did/v1",
    did ++ ("#" ++ generate_key_fingerprint pk), "JsonWebKey2020", did,
    dict_merge
      [("kty", "EC"), ("crv", crv),
       ("x", String.mk (urlsafe_b64encode (bytesBE ((pk.curve_size + 7) / 8) pk.x))),
       ("y", String.mk (urlsafe_b64encode (bytesBE ((pk.curve_size + 7) / 8) pk.y)))]
      [("kid", "#" ++ generate_key_fingerprint pk), ("alg", alg)]⟩,
    ?_, rfl, rfl, rfl, ?_⟩
  · simp only [create_did_document, halg, hconv]
  · rfl

theorem claim_C4_witness :
    ValidKey ⟨384, 11, 12⟩ ∧
    (∃ vm : VerificationMethod,
      create_did_document "did:web:example.github.io" ⟨384, 11, 12⟩
        = .ok { id := "did:web:example.github.io", assertionMethod := [vm] } ∧
      vm.type = "JsonWebKey2020" ∧
      vm.controller = "did:web:example.github.io" ∧
      vm.id = "did:web:example.github.io"
        ++ ("#" ++ generate_key_fingerprint ⟨384, 11, 12⟩) ∧
      dict_get vm.publicKeyJwk "kid"
        = some ("#" ++ generate_key_fingerprint ⟨384, 11, 12⟩)) :=
  ⟨⟨Or.inr (Or.inl rfl), by decide, by decide⟩,
   claim_C4_document_structure "did:web:example.github.io" ⟨384, 11, 12⟩
     ⟨Or.inr (Or.inl rfl), by decide, by decide⟩⟩

/-- Claim C5: key acquisition performs at most one file write, only on the
generation branch: when a file exists at the key path nothing is written
and the file system is unchanged, and any write that does occur targets a
path that held no file before the call, so an existing key file is never
overwritten. -/
theorem claim_C5_no_overwrite (parse : List Nat → Option ParsedKey)
    (fresh_key : EllipticCurvePrivateKey)
    (private_bytes_pem : EllipticCurvePrivateKey → List Nat)
    (fs : FileSystem) (write_ok : Bool) (key_path : String) :
    (load_or_generate_private_key parse fresh_key private_bytes_pem fs
        write_ok key_path).2.1.countP isFileWrite ≤ 1 ∧
    ((dict_get fs key_path).isSome = true →
      (load_or_generate_private_key parse fresh_key private_bytes_pem fs
          write_ok key_path).2.2 = fs ∧
      (load_or_generate_private_key parse fresh_key private_bytes_pem fs
          write_ok key_path).2.1.countP isFileWrite = 0) ∧
    (∀ p d, Effect.fileWrite p d ∈
        (load_or_generate_private_key parse fresh_key private_bytes_pem fs
          write_ok key_path).2.1 →
      p = key_path ∧ dict_get fs p = none) := by
  rcases hfs : dict_get fs key_path with _ | bytes
  · cases write_ok with
    | true =>
      have heval : load_or_generate_private_key parse fresh_key
          private_bytes_pem fs true key_path
          = (.success fresh_key,
             [.printMsg ("Generating new private key at `" ++ key_path ++ "`"),
              .fileWrite key_path (private_bytes_pem fresh_key)],
             dict_set fs (key_path, private_bytes_pem fresh_key)) := by
        simp [load_or_generate_private_key, hfs]
      rw [heval]
      refine ⟨by simp [List.countP_cons, List.countP_nil, isFileWrite], ?_, ?_⟩
      · intro h
        exact absurd h (by simp)
      · intro p d hmem
        simp only [List.mem_cons, List.not_mem_nil, or_false] at hmem
        rcases hmem with h | h
        · exact absurd h (by simp)
        · cases h
          exact ⟨rfl, hfs⟩
    | false =>
      have heval : load_or_generate_private_key parse fresh_key
          private_bytes_pem fs false key_path
          = (.exited .keyPersistError,
             [.printMsg ("Generating new private key at `" ++ key_path ++ "`"),
              .dieEffect "Could not write private key"], fs) := by
        simp [load_or_generate_private_key, hfs]
      rw [heval]
      refine ⟨by simp [List.countP_cons, List.countP_nil, isFileWrite], ?_, ?_⟩
      · intro h
        exact absurd h (by simp)
      · intro p d hmem
        simp only [List.mem_cons, List.not_mem_nil, or_false] at hmem
        rcases hmem with h | h <;> exact absurd h (by simp)
  · rcases hp : parse bytes with _ | pk
    · have heval : load_or_generate_private_key parse fresh_key
          private_bytes_pem fs write_ok key_path
          = (.exited .keyLoadError,
             [.printMsg ("Using existing private key at `" ++ key_path ++ "`"),
              .dieEffect "Could not load private key"], fs) := by
        simp [load_or_generate_private_key, hfs, hp]
      rw [heval]
      refine ⟨by simp [List.countP_cons, List.countP_nil, isFileWrite], ?_, ?_⟩
      · intro _
        exact ⟨rfl, by simp [List.countP_cons, List.countP_nil, isFileWrite]⟩
      · intro p d hmem
        simp only [List.mem_cons, List.not_mem_nil, or_false] at hmem
        rcases hmem with h | h <;> exact absurd h (by simp)
    · cases pk with
      | ecKey k =>
        have heval : load_or_generate_private_key parse fresh_key
            private_bytes_pem fs write_ok key_path
            = (.success k,
               [.printMsg ("Using existing private key at `" ++ key_path ++ "`")],
               fs) := by
          simp [load_or_generate_private_key, hfs, hp]
        rw [heval]
        refine ⟨by simp [List.countP_cons, List.countP_nil, isFileWrite], ?_, ?_⟩
        · intro _
          exact ⟨rfl, by simp [List.countP_cons, List.countP_nil, isFileWrite]⟩
        · intro p d hmem
          simp only [List.mem_cons, List.not_mem_nil, or_false] at hmem
          exact absurd hmem (by simp)
      | otherKey =>
        have heval : load_or_generate_private_key parse fresh_key
            private_bytes_pem fs write_ok key_path
            = (.exited .unsupportedKeyType,
               [.printMsg ("Using existing private key at `" ++ key_path ++ "`"),
                .dieEffect "Only elliptic curve keys are supported"], fs) := by
          simp [load_or_generate_private_key, hfs, hp]
        rw [heval]
        refine ⟨by simp [List.countP_cons, List.countP_nil, isFileWrite], ?_, ?_⟩
        · intro _
          exact ⟨rfl, by simp [List.countP_cons, List.countP_nil, isFileWrite]⟩
        · intro p d hmem
          simp only [List.mem_cons, List.not_mem_nil, or_false] at hmem
          rcases hmem with h | h <;> exact absurd h (by simp)

theorem claim_C5_witness :
    ((dict_get [("k", [1])] "k").isSome = true ∧
     ((load_or_generate_private_key (fun _ => some (.ecKey ⟨⟨256, 5, 7⟩⟩))
         ⟨⟨384, 1, 2⟩⟩ (fun _ => [48]) [("k", [1])] true "k").2.2 = [("k", [1])] ∧
      (load_or_generate_private_key (fun _ => some (.ecKey ⟨⟨256, 5, 7⟩⟩))
         ⟨⟨384, 1, 2⟩⟩ (fun _ => [48]) [("k", [1])] true "k").2.1.countP
        isFileWrite = 0)) ∧
    (Effect.fileWrite "k" [48] ∈
        (load_or_generate_private_key (fun _ => some (.ecKey ⟨⟨256, 5, 7⟩⟩))
          ⟨⟨384, 1, 2⟩⟩ (fun _ => [48]) [] true "k").2.1 →
      "k" = "k" ∧ dict_get ([] : FileSystem) "k" = none) :=
  ⟨⟨rfl, (claim_C5_no_overwrite (fun _ => some (.ecKey ⟨⟨256, 5, 7⟩⟩))
      ⟨⟨384, 1, 2⟩⟩ (fun _ => [48]) [("k", [1])] true "k").2.1 rfl⟩,
   (claim_C5_no_overwrite (fun _ => some (.ecKey ⟨⟨256, 5, 7⟩⟩))
      ⟨⟨384, 1, 2⟩⟩ (fun _ => [48]) [] true "k").2.2 "k" [48]⟩

/-- Claim C6: when a key file exists, loading fails as `KeyLoadError`
exactly when the bytes do not parse as an unencrypted PKCS8-PEM private
key, fails as `UnsupportedKeyType` (a distinct error) exactly when they
parse to a non-elliptic-curve key — in that case the trace stops at the
diagnostic, with no further key material access and the file system
untouched — and a parseable EC key is returned without error. -/
theorem claim_C6_load_error_cases (parse : List Nat → Option ParsedKey)
    (fresh_key : EllipticCurvePrivateKey)
    (private_bytes_pem : EllipticCurvePrivateKey → List Nat)
    (fs : FileSystem) (write_ok : Bool) (key_path : String) (bytes : List Nat)
    (hfs : dict_get fs key_path = some bytes) :
    ((load_or_generate_private_key parse fresh_key private_bytes_pem fs
        write_ok key_path).1 = .exited .keyLoadError ↔ parse bytes = none) ∧
    ((load_or_generate_private_key parse fresh_key private_bytes_pem fs
        write_ok key_path).1 = .exited .unsupportedKeyType ↔
      parse bytes = some .otherKey) ∧
    (∀ k, parse bytes = some (.ecKey k) →
      load_or_generate_private_key parse fresh_key private_bytes_pem fs
          write_ok key_path
        = (.success k,
           [.printMsg ("Using existing private key at `" ++ key_path ++ "`")],
           fs)) ∧
    (parse bytes = some .otherKey →
      load_or_generate_private_key parse fresh_key private_bytes_pem fs
          write_ok key_path
        = (.exited .unsupportedKeyType,
           [.printMsg ("Using existing private key at `" ++ key_path ++ "`"),
            .dieEffect "Only elliptic curve keys are supported"], fs)) ∧
    (parse bytes = none →
      load_or_generate_private_key parse fresh_key private_bytes_pem fs
          write_ok key_path
        = (.exited .keyLoadError,
           [.printMsg ("Using existing private key at `" ++ key_path ++ "`"),
            .dieEffect "Could not load private key"], fs)) := by
  rcases hp : parse bytes with _ | pk
  · have heval : load_or_generate_private_key parse fresh_key
        private_bytes_pem fs write_ok key_path
        = (.exited .keyLoadError,
           [.printMsg ("Using existing private key at `" ++ key_path ++ "`"),
            .dieEffect "Could not load private key"], fs) := by
      simp [load_or_generate_private_key, hfs, hp]
    rw [heval]
    refine ⟨by simp, by simp, ?_, by simp, fun _ => rfl⟩
    intro k hk
    cases hk
  · cases pk with
    | ecKey k =>
      have heval : load_or_generate_private_key parse fresh_key
          private_bytes_pem fs write_ok key_path
          = (.success k,
             [.printMsg ("Using existing private key at `" ++ key_path ++ "`")],
             fs) := by
        simp [load_or_generate_private_key, hfs, hp]
      rw [heval]
      refine ⟨by simp, by simp, ?_, by simp, by simp⟩
      intro k2 hk2
      have : k = k2 := by
        cases hk2
        rfl
      rw [this]
    | otherKey =>
      have heval : load_or_generate_private_key parse fresh_key
          private_bytes_pem fs write_ok key_path
          = (.exited .unsupportedKeyType,
             [.printMsg ("Using existing private key at `" ++ key_path ++ "`"),
              .dieEffect "Only elliptic curve keys are supported"], fs) := by
        simp [load_or_generate_private_key, hfs, hp]
      rw [heval]
      refine ⟨by simp, by simp, ?_, fun _ => rfl, by simp⟩
      intro k hk
      cases hk

theorem claim_C6_witness :
    dict_get [("k", [1, 2])] "k" = some [1, 2] ∧
    ((load_or_generate_private_key (fun _ => some .otherKey) ⟨⟨384, 1, 2⟩⟩
        (fun _ => [48]) [("k", [1, 2])] true "k").1
      = .exited .unsupportedKeyType ↔
      (fun _ : List Nat => some ParsedKey.otherKey) [1, 2] = some .otherKey) :=
  ⟨rfl,
   (claim_C6_load_error_cases (fun _ => some .otherKey) ⟨⟨384, 1, 2⟩⟩
     (fun _ => [48]) [("k", [1, 2])] true "k" [1, 2] rfl).2.1⟩

/-- Claim C7 counterexample: the claim that no internal core operation
invokes print-and-exit fails on the code — `load_or_generate_private_key`
itself emits a `die` diagnostic (print to stderr and exit 1) when an
existing key file does not parse. -/
theorem claim_C7_counterexample :
    Effect.dieEffect "Could not load private key" ∈
      (load_or_generate_private_key (fun _ => none) ⟨⟨384, 1, 2⟩⟩
        (fun _ => [48]) [("private_key.pem", [48])] true
        "private_key.pem").2.1 := by
  decide

/-- Claim C7 (amended): key acquisition invokes the process-terminating
reporter `die` itself — exactly one `die` effect on every failure branch
and none when a key is returned — rather than leaving diagnostics to a
single top-level handler. -/
theorem claim_C7_die_on_every_failure (parse : List Nat → Option ParsedKey)
    (fresh_key : EllipticCurvePrivateKey)
    (private_bytes_pem : EllipticCurvePrivateKey → List Nat)
    (fs : FileSystem) (write_ok : Bool) (key_path : String) :
    (load_or_generate_private_key parse fresh_key private_bytes_pem fs
        write_ok key_path).2.1.countP isDieEffect
      = (match (load_or_generate_private_key parse fresh_key private_bytes_pem
            fs write_ok key_path).1 with
         | .success _ => 0
         | .exited _ => 1) := by
  rcases hfs : dict_get fs key_path with _ | bytes
  · cases write_ok with
    | true => simp [load_or_generate_private_key, hfs, List.countP_cons,
        List.countP_nil, isDieEffect]
    | false => simp [load_or_generate_private_key, hfs, List.countP_cons,
        List.countP_nil, isDieEffect]
  · rcases hp : parse bytes with _ | pk
    · simp [load_or_generate_private_key, hfs, hp, List.countP_cons,
        List.countP_nil, isDieEffect]
    · cases pk with
      | ecKey k => simp [load_or_generate_private_key, hfs, hp,
          List.countP_cons, List.countP_nil, isDieEffect]
      | otherKey => simp [load_or_generate_private_key, hfs, hp,
          List.countP_cons, List.countP_nil, isDieEffect]

end GenerateDidWeb
